import Mathlib

/-!
Shallow embedding of the offline-first synchronization engine of the
`the-work` repository (src/src/services/sync-service.js, src/firebase-db.js)
and proofs of the specification's claims about it.

Timestamps (`updatedAt`, `date`, `syncedAt`, wall clock `now`) are modelled
as natural numbers; ISO-8601 string comparison via `new Date(...)` on valid
timestamps is order-isomorphic to this. An absent JavaScript field is
modelled as `Option.none`. Records are modelled with the fields the engine
reads plus one opaque `payload` field standing for all application fields
that the engine passes through unchanged.
-/

namespace TheWork

/-- A worksheet record, the synchronized unit (spec §3, and the object shape
used throughout `sync-service.js` / `firebase-db.js`). -/
structure Worksheet where
  id : String
  updatedAt : Option Nat
  date : Nat
  deleted : Bool
  syncedAt : Option Nat
  userId : Option String
  payload : Nat
deriving DecidableEq, Repr

/-- The comparison key of the reconciliation pass:
`new Date(w.updatedAt || w.date)` in `performInitialSync` — `updatedAt`
when present, otherwise the `date` field. -/
def timeOf (w : Worksheet) : Nat := w.updatedAt.getD w.date

/-- Lookup by `id`, the `Map.get` of the id-keyed maps built in
`performInitialSync` (first record with the given id). -/
def lookupId : List Worksheet → String → Option Worksheet
  | [], _ => none
  | w :: ws, i => if w.id = i then some w else lookupId ws i

/-- The action the reconciliation pass assigns to one id. -/
inductive SyncMark
  | upload
  | download
  | deleteLocal
  | noAction
deriving DecidableEq, Repr

/-- Decision for an id present locally, mirroring the first loop of
`performInitialSync` (sync-service.js lines 124-152): the branch on the
remote lookup, the two tombstone branches, then the timestamp comparison. -/
def markLocal (l : Worksheet) : Option Worksheet → SyncMark
  | none => if l.deleted then .noAction else .upload
  | some r =>
    if r.deleted && !l.deleted then .deleteLocal
    else if l.deleted && !r.deleted then .upload
    else if timeOf r < timeOf l then .upload
    else if timeOf l < timeOf r then .download
    else .noAction

/-- The three work lists `toUpload`, `toDownload`, `toDeleteLocally`
computed by `performInitialSync` before it executes anything. -/
structure SyncPlan where
  toUpload : List Worksheet
  toDownload : List Worksheet
  toDeleteLocally : List String
deriving DecidableEq, Repr

/-- The planning phase of `performInitialSync`: the loop over the local map
(producing uploads, downloads of newer remote records, and local deletes)
followed by the loop over the remote map (downloading remote-only records
that are not tombstoned). List order matches the iteration order. -/
def planSync (lws rws : List Worksheet) : SyncPlan where
  toUpload := lws.filter fun l => markLocal l (lookupId rws l.id) == SyncMark.upload
  toDownload :=
    (lws.filterMap fun l =>
      match lookupId rws l.id with
      | some r => if markLocal l (some r) == SyncMark.download then some r else none
      | none => none)
    ++ rws.filter fun r => (lookupId lws r.id).isNone && !r.deleted
  toDeleteLocally := lws.filterMap fun l =>
    if markLocal l (lookupId rws l.id) == SyncMark.deleteLocal then some l.id else none

/-- Store upsert keyed by `id`: IndexedDB `store.put` for the local store,
Firestore `setDoc(doc(id), ...)` for the remote store. -/
def upsert (ws : List Worksheet) (w : Worksheet) : List Worksheet :=
  if ws.any fun x => x.id == w.id then ws.map fun x => if x.id = w.id then w else x
  else ws ++ [w]

/-- Local hard delete by id: IndexedDB `store.delete(id)`. -/
def removeId (ws : List Worksheet) (i : String) : List Worksheet :=
  ws.filter fun x => x.id ≠ i

/-- What `FirebaseDbService.saveWorksheet` stores (firebase-db.js lines
87-117): the uploaded record with `userId` set, `updatedAt` kept when
present (else stamped with the current time), and `syncedAt` stamped. -/
def remoteSave (uid : String) (now : Nat) (w : Worksheet) : Worksheet :=
  { w with userId := some uid
           updatedAt := some (w.updatedAt.getD now)
           syncedAt := some now }

/-- Result of one full reconciliation pass. -/
structure SyncResult where
  localAfter : List Worksheet
  remoteAfter : List Worksheet
  uploaded : Nat
  downloaded : Nat
  deletedCount : Nat
deriving Repr

/-- The execution phase of `performInitialSync` (lines 169-190): all
uploads via `db.saveWorksheet`, then all downloads via
`saveLocalWorksheet` (local upsert), then all local hard deletes; the
reported counts are the lengths of the three work lists. -/
def runSync (uid : String) (now : Nat) (lws rws : List Worksheet) : SyncResult :=
  let p := planSync lws rws
  { localAfter := (p.toDeleteLocally.foldl removeId (p.toDownload.foldl upsert lws))
    remoteAfter := p.toUpload.foldl (fun acc w => upsert acc (remoteSave uid now w)) rws
    uploaded := p.toUpload.length
    downloaded := p.toDownload.length
    deletedCount := p.toDeleteLocally.length }

/-! ### Lookup lemmas -/

theorem lookupId_nil (i : String) : lookupId [] i = none := rfl

theorem lookupId_cons (w : Worksheet) (ws : List Worksheet) (i : String) :
    lookupId (w :: ws) i = if w.id = i then some w else lookupId ws i := rfl

theorem lookupId_eq_none_iff {ws : List Worksheet} {i : String} :
    lookupId ws i = none ↔ ∀ w ∈ ws, w.id ≠ i := by
  induction ws with
  | nil => simp [lookupId]
  | cons x xs ih =>
    by_cases hx : x.id = i
    · simp [lookupId_cons, hx]
    · simp [lookupId_cons, hx, ih]

theorem lookupId_mem {ws : List Worksheet} {i : String} {w : Worksheet}
    (h : lookupId ws i = some w) : w ∈ ws ∧ w.id = i := by
  induction ws with
  | nil => simp [lookupId] at h
  | cons x xs ih =>
    rw [lookupId_cons] at h
    by_cases hx : x.id = i
    · rw [if_pos hx] at h
      cases h
      exact ⟨List.mem_cons_self _ _, hx⟩
    · rw [if_neg hx] at h
      obtain ⟨h1, h2⟩ := ih h
      exact ⟨List.mem_cons_of_mem x h1, h2⟩

theorem lookupId_of_mem {ws : List Worksheet} (h : (ws.map Worksheet.id).Nodup)
    {w : Worksheet} (hw : w ∈ ws) : lookupId ws w.id = some w := by
  induction ws with
  | nil => cases hw
  | cons x xs ih =>
    rw [List.map_cons, List.nodup_cons] at h
    rcases List.mem_cons.mp hw with rfl | hw'
    · rw [lookupId_cons, if_pos rfl]
    · rw [lookupId_cons]
      have hne : x.id ≠ w.id := by
        intro he
        exact h.1 (by rw [he]; exact List.mem_map_of_mem Worksheet.id hw')
      rw [if_neg hne]
      exact ih h.2 hw'

theorem id_inj {ws : List Worksheet} (h : (ws.map Worksheet.id).Nodup)
    {a b : Worksheet} (ha : a ∈ ws) (hb : b ∈ ws) (hab : a.id = b.id) : a = b :=
  List.inj_on_of_nodup_map h ha hb hab

/-! ### Membership in the three work lists -/

theorem mem_toUpload {lws rws : List Worksheet} {l : Worksheet} :
    l ∈ (planSync lws rws).toUpload ↔
      l ∈ lws ∧ markLocal l (lookupId rws l.id) = SyncMark.upload := by
  simp [planSync, List.mem_filter]

theorem mem_toDeleteLocally {lws rws : List Worksheet} {i : String} :
    i ∈ (planSync lws rws).toDeleteLocally ↔
      ∃ l ∈ lws, markLocal l (lookupId rws l.id) = SyncMark.deleteLocal ∧ l.id = i := by
  simp only [planSync, List.mem_filterMap]
  constructor
  · rintro ⟨l, hl, hli⟩
    by_cases hm : markLocal l (lookupId rws l.id) == SyncMark.deleteLocal
    · rw [if_pos hm] at hli
      cases hli
      exact ⟨l, hl, beq_iff_eq.mp hm, rfl⟩
    · rw [if_neg hm] at hli
      cases hli
  · rintro ⟨l, hl, hm, hi⟩
    exact ⟨l, hl, by rw [if_pos (beq_iff_eq.mpr hm)]; rw [hi]⟩

theorem mem_toDownload {lws rws : List Worksheet} {r : Worksheet} :
    r ∈ (planSync lws rws).toDownload ↔
      (∃ l ∈ lws, lookupId rws l.id = some r ∧ markLocal l (some r) = SyncMark.download)
      ∨ (r ∈ rws ∧ lookupId lws r.id = none ∧ r.deleted = false) := by
  simp only [planSync, List.mem_append, List.mem_filterMap, List.mem_filter]
  constructor
  · rintro (⟨l, hl, hlr⟩ | ⟨hr, hcond⟩)
    · left
      rcases hr' : lookupId rws l.id with _ | r'
      · simp only [hr'] at hlr
        cases hlr
      · simp only [hr'] at hlr
        split at hlr
        · cases hlr
          rename_i hm
          exact ⟨l, hl, hr', beq_iff_eq.mp hm⟩
        · cases hlr
    · right
      rw [Bool.and_eq_true, Option.isNone_iff_eq_none, Bool.not_eq_true'] at hcond
      exact ⟨hr, hcond.1, hcond.2⟩
  · rintro (⟨l, hl, hr', hm⟩ | ⟨hr, hnone, hdel⟩)
    · left
      exact ⟨l, hl, by simp [hr', hm]⟩
    · right
      exact ⟨hr, by rw [Bool.and_eq_true, Option.isNone_iff_eq_none, Bool.not_eq_true']
                    exact ⟨hnone, hdel⟩⟩

/-! ### Propositional form of the per-id decision -/

theorem markLocal_none_iff {l : Worksheet} :
    markLocal l none = SyncMark.upload ↔ l.deleted = false := by
  cases hld : l.deleted <;> simp [markLocal, hld]

theorem markLocal_some_deleteLocal_iff {l r : Worksheet} :
    markLocal l (some r) = SyncMark.deleteLocal ↔
      r.deleted = true ∧ l.deleted = false := by
  cases hld : l.deleted <;> cases hrd : r.deleted <;>
    by_cases h1 : timeOf r < timeOf l <;> by_cases h2 : timeOf l < timeOf r <;>
      simp [markLocal, hld, hrd, h1, h2]

theorem markLocal_some_upload_iff {l r : Worksheet} :
    markLocal l (some r) = SyncMark.upload ↔
      (l.deleted = true ∧ r.deleted = false) ∨
      (l.deleted = r.deleted ∧ timeOf r < timeOf l) := by
  cases hld : l.deleted <;> cases hrd : r.deleted <;>
    by_cases h1 : timeOf r < timeOf l <;> by_cases h2 : timeOf l < timeOf r <;>
      simp [markLocal, hld, hrd, h1, h2] <;> omega

theorem markLocal_some_download_iff {l r : Worksheet} :
    markLocal l (some r) = SyncMark.download ↔
      (l.deleted = r.deleted ∧ timeOf l < timeOf r) := by
  cases hld : l.deleted <;> cases hrd : r.deleted <;>
    by_cases h1 : timeOf r < timeOf l <;> by_cases h2 : timeOf l < timeOf r <;>
      simp [markLocal, hld, hrd, h1, h2] <;> omega

theorem timeOf_eq_of_updatedAt {w : Worksheet} {t : Nat} (h : w.updatedAt = some t) :
    timeOf w = t := by
  simp [timeOf, h]

/-- C1: the full reconciliation pass marks records exactly per the spec's
decision table. For an id present only locally, it is marked for upload iff
its local record is not tombstoned. For an id present in both sets (with
`updatedAt` present on both records, per the data model): it is marked for
local hard delete iff the remote record is tombstoned and the local one is
not; marked for upload iff the local record is tombstoned and the remote
one is not, or — in the remaining cases, i.e. equal tombstone state — iff
`local.updatedAt > remote.updatedAt`; marked for download iff (equal
tombstone state and) `remote.updatedAt > local.updatedAt`; equal timestamps
leave it unmarked. For an id present only remotely, it is marked for
download iff the remote record is not tombstoned. Record sets have
id-distinct records (they are read off id-keyed stores). -/
theorem reconcile_decision_table (lws rws : List Worksheet)
    (hl : (lws.map Worksheet.id).Nodup) (hr : (rws.map Worksheet.id).Nodup) :
    (∀ l ∈ lws, lookupId rws l.id = none →
      (l ∈ (planSync lws rws).toUpload ↔ l.deleted = false)) ∧
    (∀ l ∈ lws, ∀ r : Worksheet, lookupId rws l.id = some r →
      ((l.id ∈ (planSync lws rws).toDeleteLocally ↔
          (r.deleted = true ∧ l.deleted = false)) ∧
       (∀ lt rt : Nat, l.updatedAt = some lt → r.updatedAt = some rt →
        ((l ∈ (planSync lws rws).toUpload ↔
            (l.deleted = true ∧ r.deleted = false) ∨
            (l.deleted = r.deleted ∧ rt < lt)) ∧
         (r ∈ (planSync lws rws).toDownload ↔
            (l.deleted = r.deleted ∧ lt < rt)))))) ∧
    (∀ r ∈ rws, lookupId lws r.id = none →
      (r ∈ (planSync lws rws).toDownload ↔ r.deleted = false)) := by
  refine ⟨?_, ?_, ?_⟩
  · intro l hl0 hnone
    rw [mem_toUpload, hnone]
    simp [hl0, markLocal_none_iff]
  · intro l hl0 r hlr
    have hrid : r.id = l.id := (lookupId_mem hlr).2
    constructor
    · rw [mem_toDeleteLocally]
      constructor
      · rintro ⟨l', hl', hm, hid⟩
        have : l' = l := id_inj hl hl' hl0 hid
        subst this
        rw [hlr] at hm
        exact markLocal_some_deleteLocal_iff.mp hm
      · intro hcond
        exact ⟨l, hl0, by rw [hlr]; exact markLocal_some_deleteLocal_iff.mpr hcond, rfl⟩
    · intro lt rt hlt hrt
      constructor
      · rw [mem_toUpload, hlr]
        simp [hl0, markLocal_some_upload_iff, timeOf_eq_of_updatedAt hlt,
          timeOf_eq_of_updatedAt hrt]
      · rw [mem_toDownload]
        constructor
        · rintro (⟨l', hl', hlr', hm⟩ | ⟨_, hnone, _⟩)
          · have hrid' : r.id = l'.id := (lookupId_mem hlr').2
            have : l' = l := id_inj hl hl' hl0 (by rw [← hrid', hrid])
            subst this
            rw [markLocal_some_download_iff, timeOf_eq_of_updatedAt hlt,
              timeOf_eq_of_updatedAt hrt] at hm
            exact hm
          · exact absurd hrid.symm (lookupId_eq_none_iff.mp hnone l hl0)
        · intro hcond
          left
          refine ⟨l, hl0, hlr, ?_⟩
          rw [markLocal_some_download_iff, timeOf_eq_of_updatedAt hlt,
            timeOf_eq_of_updatedAt hrt]
          exact hcond
  · intro r hr0 hnone
    rw [mem_toDownload]
    constructor
    · rintro (⟨l, hl0, hlr, _⟩ | ⟨_, _, hdel⟩)
      · have hrid : r.id = l.id := (lookupId_mem hlr).2
        exact absurd hrid.symm (lookupId_eq_none_iff.mp hnone l hl0)
      · exact hdel
    · intro hdel
      exact Or.inr ⟨hr0, hnone, hdel⟩

/-- Witness for C1's theorem: a concrete pair of singleton record sets with
the same id on both sides, both live, local newer — the local record is
marked for upload. -/
theorem reconcile_decision_table_witness :
    (⟨"a", some 2, 0, false, none, none, 0⟩ : Worksheet) ∈
      (planSync [(⟨"a", some 2, 0, false, none, none, 0⟩ : Worksheet)]
        [(⟨"a", some 1, 0, false, none, none, 0⟩ : Worksheet)]).toUpload := by
  have h := (reconcile_decision_table
      [(⟨"a", some 2, 0, false, none, none, 0⟩ : Worksheet)]
      [(⟨"a", some 1, 0, false, none, none, 0⟩ : Worksheet)]
      (by decide) (by decide)).2.1
  have h2 := (h ⟨"a", some 2, 0, false, none, none, 0⟩ (by decide)
      ⟨"a", some 1, 0, false, none, none, 0⟩ (by decide)).2 2 1 rfl rfl
  exact h2.1.mpr (Or.inr ⟨rfl, by decide⟩)

/-! ### Store-update lemmas -/

theorem lookupId_append_of_none {ws₁ : List Worksheet} (ws₂ : List Worksheet)
    {i : String} (h : lookupId ws₁ i = none) :
    lookupId (ws₁ ++ ws₂) i = lookupId ws₂ i := by
  induction ws₁ with
  | nil => simp
  | cons x xs ih =>
    rw [lookupId_cons] at h
    by_cases hx : x.id = i
    · rw [if_pos hx] at h; cases h
    · rw [if_neg hx] at h
      rw [List.cons_append, lookupId_cons, if_neg hx]
      exact ih h

theorem lookupId_append_of_some {ws₁ : List Worksheet} (ws₂ : List Worksheet)
    {i : String} {w : Worksheet} (h : lookupId ws₁ i = some w) :
    lookupId (ws₁ ++ ws₂) i = some w := by
  induction ws₁ with
  | nil => cases h
  | cons x xs ih =>
    rw [lookupId_cons] at h
    by_cases hx : x.id = i
    · rw [if_pos hx] at h
      rw [List.cons_append, lookupId_cons, if_pos hx]
      exact h
    · rw [if_neg hx] at h
      rw [List.cons_append, lookupId_cons, if_neg hx]
      exact ih h

theorem lookupId_replace_ne (ws : List Worksheet) (w : Worksheet) (i : String)
    (hne : w.id ≠ i) :
    lookupId (ws.map fun x => if x.id = w.id then w else x) i = lookupId ws i := by
  induction ws with
  | nil => simp
  | cons x xs ih =>
    rw [List.map_cons, lookupId_cons, lookupId_cons]
    by_cases hxw : x.id = w.id
    · rw [if_pos hxw]
      have hxi : ¬ x.id = i := by rw [hxw]; exact hne
      rw [if_neg hne, if_neg hxi]
      exact ih
    · rw [if_neg hxw]
      by_cases hxi : x.id = i
      · rw [if_pos hxi, if_pos hxi]
      · rw [if_neg hxi, if_neg hxi]
        exact ih

theorem lookupId_replace_eq (ws : List Worksheet) (w : Worksheet)
    (hmem : (ws.any fun x => x.id == w.id) = true) :
    lookupId (ws.map fun x => if x.id = w.id then w else x) w.id = some w := by
  induction ws with
  | nil => cases hmem
  | cons x xs ih =>
    rw [List.map_cons, lookupId_cons]
    by_cases hxw : x.id = w.id
    · rw [if_pos hxw, if_pos rfl]
    · rw [if_neg hxw, if_neg hxw]
      rw [List.any_cons] at hmem
      have : (xs.any fun x => x.id == w.id) = true := by
        rcases Bool.or_eq_true_iff.mp hmem with h | h
        · exact absurd (beq_iff_eq.mp h) hxw
        · exact h
      exact ih this

theorem lookupId_upsert (ws : List Worksheet) (w : Worksheet) (i : String) :
    lookupId (upsert ws w) i = if w.id = i then some w else lookupId ws i := by
  unfold upsert
  by_cases hmem : (ws.any fun x => x.id == w.id) = true
  · rw [if_pos hmem]
    by_cases hwi : w.id = i
    · rw [if_pos hwi, ← hwi]
      exact lookupId_replace_eq ws w hmem
    · rw [if_neg hwi]
      exact lookupId_replace_ne ws w i hwi
  · rw [if_neg hmem]
    have hnone : ∀ x ∈ ws, x.id ≠ w.id := by
      intro x hx he
      exact hmem (List.any_eq_true.mpr ⟨x, hx, beq_iff_eq.mpr he⟩)
    by_cases hwi : w.id = i
    · rw [if_pos hwi]
      have : lookupId ws i = none :=
        lookupId_eq_none_iff.mpr (fun x hx => by rw [← hwi]; exact hnone x hx)
      rw [lookupId_append_of_none _ this, lookupId_cons, if_pos hwi]
    · rw [if_neg hwi]
      rcases hws : lookupId ws i with _ | v
      · rw [lookupId_append_of_none _ hws, lookupId_cons, if_neg hwi]
        rfl
      · exact lookupId_append_of_some _ hws

theorem lookupId_removeId (ws : List Worksheet) (j i : String) :
    lookupId (removeId ws j) i = if j = i then none else lookupId ws i := by
  induction ws with
  | nil => simp [removeId, lookupId]
  | cons x xs ih =>
    rw [removeId, List.filter_cons]
    by_cases hxj : x.id = j
    · have : (x.id ≠ j : Bool) = false := by simp [hxj]
      rw [this, if_neg (by simp)]
      rw [removeId] at ih
      rw [ih]
      by_cases hji : j = i
      · rw [if_pos hji, if_pos hji]
      · rw [if_neg hji, if_neg hji, lookupId_cons, if_neg (by rw [hxj]; exact hji)]
    · have : (x.id ≠ j : Bool) = true := by simp [hxj]
      rw [this, if_pos rfl, lookupId_cons]
      by_cases hxi : x.id = i
      · have hji : ¬ j = i := fun he => hxj (by rw [hxi, he])
        rw [if_pos hxi, if_neg hji, lookupId_cons, if_pos hxi]
      · rw [if_neg hxi]
        rw [removeId] at ih
        rw [ih, lookupId_cons]
        by_cases hji : j = i
        · rw [if_pos hji, if_pos hji]
        · rw [if_neg hji, if_neg hji, if_neg hxi]

theorem lookupId_foldl_upsert (f : Worksheet → Worksheet)
    (hf : ∀ w, (f w).id = w.id) (us : List Worksheet) (acc : List Worksheet)
    (i : String) (hnd : (us.map Worksheet.id).Nodup) :
    lookupId (us.foldl (fun a w => upsert a (f w)) acc) i =
      match lookupId us i with
      | some w => some (f w)
      | none => lookupId acc i := by
  induction us generalizing acc with
  | nil => simp [lookupId]
  | cons u us ih =>
    rw [List.foldl_cons]
    rw [List.map_cons, List.nodup_cons] at hnd
    by_cases hu : u.id = i
    · have hnone : lookupId us i = none := by
        refine lookupId_eq_none_iff.mpr (fun w hw he => hnd.1 ?_)
        rw [hu, ← he]
        exact List.mem_map_of_mem Worksheet.id hw
      rw [ih _ hnd.2, hnone, lookupId_cons, if_pos hu]
      simp [lookupId_upsert, hf, hu]
    · rw [ih _ hnd.2, lookupId_cons, if_neg hu]
      rcases hus : lookupId us i with _ | v
      · simp [lookupId_upsert, hf, hu]
      · rfl

theorem lookupId_foldl_removeId (js : List String) (acc : List Worksheet)
    (i : String) :
    lookupId (js.foldl removeId acc) i =
      if i ∈ js then none else lookupId acc i := by
  induction js generalizing acc with
  | nil => simp
  | cons j js ih =>
    rw [List.foldl_cons, ih, lookupId_removeId]
    by_cases hj : i ∈ js
    · simp [hj]
    · by_cases hji : j = i
      · simp [hj, hji]
      · have : ¬ i ∈ j :: js := by
          rw [List.mem_cons]
          rintro (rfl | h)
          · exact hji rfl
          · exact hj h
        simp [hj, hji, this]

/-! ### Preservation of id-distinctness by store updates -/

theorem upsert_ids_nodup {ws : List Worksheet} (h : (ws.map Worksheet.id).Nodup)
    (w : Worksheet) : ((upsert ws w).map Worksheet.id).Nodup := by
  unfold upsert
  by_cases hmem : (ws.any fun x => x.id == w.id) = true
  · rw [if_pos hmem]
    have : ((ws.map fun x => if x.id = w.id then w else x).map Worksheet.id)
        = ws.map Worksheet.id := by
      rw [List.map_map]
      refine List.map_congr_left (fun x _ => ?_)
      by_cases hxw : x.id = w.id
      · simp [Function.comp, hxw]
      · simp [Function.comp, hxw]
    rw [this]
    exact h
  · rw [if_neg hmem, List.map_append, List.map_singleton]
    refine List.Nodup.append h (List.nodup_singleton _) ?_
    intro a ha hb
    rw [List.mem_singleton] at hb
    subst hb
    obtain ⟨x, hx, hxid⟩ := List.mem_map.mp ha
    exact hmem (List.any_eq_true.mpr ⟨x, hx, beq_iff_eq.mpr hxid⟩)

theorem removeId_ids_nodup {ws : List Worksheet} (h : (ws.map Worksheet.id).Nodup)
    (j : String) : ((removeId ws j).map Worksheet.id).Nodup :=
  (((List.filter_sublist ws).map Worksheet.id).nodup h)

theorem foldl_upsert_ids_nodup (f : Worksheet → Worksheet) (us : List Worksheet)
    {acc : List Worksheet} (h : (acc.map Worksheet.id).Nodup) :
    (((us.foldl (fun a w => upsert a (f w)) acc)).map Worksheet.id).Nodup := by
  induction us generalizing acc with
  | nil => exact h
  | cons u us ih => exact ih (upsert_ids_nodup h (f u))

theorem foldl_removeId_ids_nodup (js : List String) {acc : List Worksheet}
    (h : (acc.map Worksheet.id).Nodup) :
    ((js.foldl removeId acc).map Worksheet.id).Nodup := by
  induction js generalizing acc with
  | nil => exact h
  | cons j js ih => exact ih (removeId_ids_nodup h j)

/-! ### The per-id decision of the whole pass

`idMark` packages the union of the two loops of `performInitialSync` as a
function of one id: the decision taken for that id given the two stores. -/

def idMark (lws rws : List Worksheet) (i : String) : SyncMark :=
  match lookupId lws i with
  | some l => markLocal l (lookupId rws i)
  | none =>
    match lookupId rws i with
    | some r => if r.deleted then .noAction else .download
    | none => .noAction

theorem lookupId_eq_some_iff {ws : List Worksheet}
    (h : (ws.map Worksheet.id).Nodup) {i : String} {w : Worksheet} :
    lookupId ws i = some w ↔ w ∈ ws ∧ w.id = i := by
  constructor
  · exact lookupId_mem
  · rintro ⟨hw, rfl⟩
    exact lookupId_of_mem h hw

theorem sublist_ids_of_filterMap (g : Worksheet → Option Worksheet)
    (hg : ∀ l r, g l = some r → r.id = l.id) (ws : List Worksheet) :
    ((ws.filterMap g).map Worksheet.id).Sublist (ws.map Worksheet.id) := by
  induction ws with
  | nil => simp
  | cons x xs ih =>
    rw [List.filterMap_cons, List.map_cons]
    rcases hx : g x with _ | r
    · exact ih.cons _
    · rw [List.map_cons, hg x r hx]
      exact ih.cons₂ _

theorem sublist_of_filterMap_ids (g : Worksheet → Option String)
    (hg : ∀ l s, g l = some s → s = l.id) (ws : List Worksheet) :
    (ws.filterMap g).Sublist (ws.map Worksheet.id) := by
  induction ws with
  | nil => simp
  | cons x xs ih =>
    rw [List.filterMap_cons, List.map_cons]
    rcases hx : g x with _ | s
    · exact ih.cons _
    · rw [hg x s hx]
      exact ih.cons₂ _

theorem toUpload_ids_nodup {lws rws : List Worksheet}
    (hl : (lws.map Worksheet.id).Nodup) :
    ((planSync lws rws).toUpload.map Worksheet.id).Nodup :=
  (((List.filter_sublist lws).map Worksheet.id).nodup hl)

theorem toDeleteLocally_nodup {lws rws : List Worksheet}
    (hl : (lws.map Worksheet.id).Nodup) :
    (planSync lws rws).toDeleteLocally.Nodup := by
  refine List.Sublist.nodup ?_ hl
  exact sublist_of_filterMap_ids _
    (fun l s hs => by
      by_cases hc : markLocal l (lookupId rws l.id) == SyncMark.deleteLocal
      · rw [if_pos hc] at hs; cases hs; rfl
      · rw [if_neg hc] at hs; cases hs) lws

theorem toDownload_ids_nodup {lws rws : List Worksheet}
    (hl : (lws.map Worksheet.id).Nodup) (hr : (rws.map Worksheet.id).Nodup) :
    ((planSync lws rws).toDownload.map Worksheet.id).Nodup := by
  have h1 : ((lws.filterMap fun l =>
      match lookupId rws l.id with
      | some r => if markLocal l (some r) == SyncMark.download then some r else none
      | none => none).map Worksheet.id).Nodup := by
    refine List.Sublist.nodup ?_ hl
    refine sublist_ids_of_filterMap _ (fun l r hs => ?_) lws
    rcases hlr : lookupId rws l.id with _ | r'
    · simp only [hlr] at hs
      cases hs
    · simp only [hlr] at hs
      split at hs
      · cases hs
        exact (lookupId_mem hlr).2
      · cases hs
  have h2 : (((rws.filter fun r =>
      (lookupId lws r.id).isNone && !r.deleted).map Worksheet.id)).Nodup :=
    (((List.filter_sublist rws).map Worksheet.id).nodup hr)
  rw [show (planSync lws rws).toDownload =
      (lws.filterMap fun l =>
        match lookupId rws l.id with
        | some r => if markLocal l (some r) == SyncMark.download then some r else none
        | none => none)
      ++ rws.filter (fun r => (lookupId lws r.id).isNone && !r.deleted) from rfl,
    List.map_append]
  refine List.Nodup.append h1 h2 ?_
  intro a ha hb
  obtain ⟨w1, hw1, hw1id⟩ := List.mem_map.mp ha
  obtain ⟨w2, hw2, hw2id⟩ := List.mem_map.mp hb
  obtain ⟨l, hl0, hg⟩ := List.mem_filterMap.mp hw1
  rw [List.mem_filter] at hw2
  rw [Bool.and_eq_true, Option.isNone_iff_eq_none] at hw2
  have hw1l : w1.id = l.id := by
    rcases hlr : lookupId rws l.id with _ | r'
    · simp only [hlr] at hg
      cases hg
    · simp only [hlr] at hg
      split at hg
      · cases hg
        exact (lookupId_mem hlr).2
      · cases hg
  have hids : w2.id = l.id := by rw [hw2id, ← hw1id, hw1l]
  have hn : lookupId lws l.id = none := by rw [← hids]; exact hw2.2.1
  rw [lookupId_eq_none_iff] at hn
  exact hn l hl0 rfl

theorem idMark_of_local {lws rws : List Worksheet} {i : String} {l : Worksheet}
    (h : lookupId lws i = some l) :
    idMark lws rws i = markLocal l (lookupId rws i) := by
  rw [idMark, h]

theorem idMark_of_no_local {lws rws : List Worksheet} {i : String}
    (h : lookupId lws i = none) :
    idMark lws rws i =
      match lookupId rws i with
      | some r => if r.deleted then .noAction else .download
      | none => .noAction := by
  rw [idMark, h]

theorem mem_toDeleteLocally_iff_idMark {lws rws : List Worksheet}
    (hl : (lws.map Worksheet.id).Nodup) {i : String} :
    i ∈ (planSync lws rws).toDeleteLocally ↔ idMark lws rws i = .deleteLocal := by
  rw [mem_toDeleteLocally]
  constructor
  · rintro ⟨l, hl0, hm, rfl⟩
    rw [idMark_of_local (lookupId_of_mem hl hl0)]
    exact hm
  · intro h
    rcases hlw : lookupId lws i with _ | l
    · rw [idMark_of_no_local hlw] at h
      rcases hrw : lookupId rws i with _ | r
      · simp only [hrw] at h
        cases h
      · simp only [hrw] at h
        cases hrd : r.deleted <;> simp [hrd] at h
    · rw [idMark_of_local hlw] at h
      obtain ⟨hmem, hid⟩ := lookupId_mem hlw
      exact ⟨l, hmem, by rw [hid]; exact h, hid⟩

theorem lookupId_toUpload {lws rws : List Worksheet}
    (hl : (lws.map Worksheet.id).Nodup) (i : String) :
    lookupId (planSync lws rws).toUpload i =
      if idMark lws rws i = .upload then lookupId lws i else none := by
  by_cases h : idMark lws rws i = .upload
  · rw [if_pos h]
    rcases hlw : lookupId lws i with _ | l
    · rw [idMark_of_no_local hlw] at h
      rcases hrw : lookupId rws i with _ | r
      · simp only [hrw] at h
        cases h
      · simp only [hrw] at h
        cases hrd : r.deleted <;> simp [hrd] at h
    · rw [idMark_of_local hlw] at h
      obtain ⟨hmem, hid⟩ := lookupId_mem hlw
      refine (lookupId_eq_some_iff (toUpload_ids_nodup hl)).mpr ⟨?_, hid⟩
      rw [mem_toUpload]
      exact ⟨hmem, by rw [hid]; exact h⟩
  · rw [if_neg h]
    refine lookupId_eq_none_iff.mpr (fun w hw hwi => h ?_)
    rw [mem_toUpload] at hw
    rw [← hwi, idMark_of_local (lookupId_of_mem hl hw.1)]
    exact hw.2

theorem lookupId_toDownload {lws rws : List Worksheet}
    (hl : (lws.map Worksheet.id).Nodup) (hr : (rws.map Worksheet.id).Nodup)
    (i : String) :
    lookupId (planSync lws rws).toDownload i =
      if idMark lws rws i = .download then lookupId rws i else none := by
  by_cases h : idMark lws rws i = .download
  · rw [if_pos h]
    rcases hlw : lookupId lws i with _ | l
    · rw [idMark_of_no_local hlw] at h
      rcases hrw : lookupId rws i with _ | r
      · simp only [hrw] at h
        cases h
      · simp only [hrw] at h
        obtain ⟨hrmem, hrid⟩ := lookupId_mem hrw
        have hrdel : r.deleted = false := by
          cases hrd : r.deleted
          · rfl
          · simp [hrd] at h
        refine (lookupId_eq_some_iff (toDownload_ids_nodup hl hr)).mpr ⟨?_, hrid⟩
        rw [mem_toDownload]
        refine Or.inr ⟨hrmem, ?_, hrdel⟩
        rw [hrid]
        exact hlw
    · rw [idMark_of_local hlw] at h
      obtain ⟨hmem, hid⟩ := lookupId_mem hlw
      rcases hrw : lookupId rws i with _ | r
      · rw [hrw] at h
        cases hld : l.deleted <;> simp [markLocal, hld] at h
      · rw [hrw] at h
        obtain ⟨hrmem, hrid⟩ := lookupId_mem hrw
        refine (lookupId_eq_some_iff (toDownload_ids_nodup hl hr)).mpr ⟨?_, hrid⟩
        rw [mem_toDownload]
        refine Or.inl ⟨l, hmem, ?_, h⟩
        rw [hid]
        exact hrw
  · rw [if_neg h]
    refine lookupId_eq_none_iff.mpr (fun w hw hwi => h ?_)
    rw [mem_toDownload] at hw
    rcases hw with ⟨l, hl0, hlr, hm⟩ | ⟨hrmem, hnone, hdel⟩
    · have hrid : w.id = l.id := (lookupId_mem hlr).2
      rw [← hwi, hrid, idMark_of_local (lookupId_of_mem hl hl0)]
      rw [show lookupId rws l.id = some w from hlr]
      exact hm
    · rw [← hwi, idMark_of_no_local hnone,
        show lookupId rws w.id = some w from lookupId_of_mem hr hrmem]
      simp [hdel]

theorem lookupId_foldl_upsert_plain (us acc : List Worksheet) (i : String)
    (hnd : (us.map Worksheet.id).Nodup) :
    lookupId (us.foldl upsert acc) i =
      match lookupId us i with
      | some w => some w
      | none => lookupId acc i :=
  lookupId_foldl_upsert (fun w => w) (fun _ => rfl) us acc i hnd

theorem idMark_download_remote_some {lws rws : List Worksheet} {i : String}
    (h : idMark lws rws i = .download) : ∃ r, lookupId rws i = some r := by
  rcases hrw : lookupId rws i with _ | r
  · exfalso
    rcases hlw : lookupId lws i with _ | l
    · rw [idMark_of_no_local hlw] at h
      simp only [hrw] at h
      cases h
    · rw [idMark_of_local hlw, hrw] at h
      cases hld : l.deleted <;> simp [markLocal, hld] at h
  · exact ⟨r, rfl⟩

theorem idMark_upload_local_some {lws rws : List Worksheet} {i : String}
    (h : idMark lws rws i = .upload) : ∃ l, lookupId lws i = some l := by
  rcases hlw : lookupId lws i with _ | l
  · exfalso
    rw [idMark_of_no_local hlw] at h
    rcases hrw : lookupId rws i with _ | r
    · simp only [hrw] at h
      cases h
    · simp only [hrw] at h
      cases hrd : r.deleted <;> simp [hrd] at h
  · exact ⟨l, rfl⟩

/-- The local store after the pass, looked up per id: a hard-deleted id is
gone, a downloaded id holds the remote record, every other id is
unchanged. -/
theorem runSync_local_lookup {lws rws : List Worksheet}
    (hl : (lws.map Worksheet.id).Nodup) (hr : (rws.map Worksheet.id).Nodup)
    (uid : String) (now : Nat) (i : String) :
    lookupId (runSync uid now lws rws).localAfter i =
      if idMark lws rws i = .deleteLocal then none
      else if idMark lws rws i = .download then lookupId rws i
      else lookupId lws i := by
  show lookupId ((planSync lws rws).toDeleteLocally.foldl removeId
      ((planSync lws rws).toDownload.foldl upsert lws)) i = _
  rw [lookupId_foldl_removeId,
    lookupId_foldl_upsert_plain _ _ _ (toDownload_ids_nodup hl hr),
    lookupId_toDownload hl hr]
  by_cases hdel : idMark lws rws i = .deleteLocal
  · rw [if_pos ((mem_toDeleteLocally_iff_idMark hl).mpr hdel), if_pos hdel]
  · rw [if_neg (fun hc => hdel ((mem_toDeleteLocally_iff_idMark hl).mp hc)),
      if_neg hdel]
    by_cases hdl : idMark lws rws i = .download
    · rw [if_pos hdl, if_pos hdl]
      obtain ⟨r, hrw⟩ := idMark_download_remote_some hdl
      rw [hrw]
    · rw [if_neg hdl, if_neg hdl]

/-- The remote store after the pass, looked up per id: an uploaded id holds
the saved form of the local record, every other id is unchanged. -/
theorem runSync_remote_lookup {lws rws : List Worksheet}
    (hl : (lws.map Worksheet.id).Nodup)
    (uid : String) (now : Nat) (i : String) :
    lookupId (runSync uid now lws rws).remoteAfter i =
      if idMark lws rws i = .upload
      then (lookupId lws i).map (remoteSave uid now)
      else lookupId rws i := by
  show lookupId ((planSync lws rws).toUpload.foldl
      (fun acc w => upsert acc (remoteSave uid now w)) rws) i = _
  rw [lookupId_foldl_upsert (remoteSave uid now) (fun _ => rfl) _ _ _
      (toUpload_ids_nodup hl),
    lookupId_toUpload hl]
  by_cases h : idMark lws rws i = .upload
  · rw [if_pos h, if_pos h]
    obtain ⟨l, hlw⟩ := idMark_upload_local_some h
    rw [hlw]
    rfl
  · rw [if_neg h, if_neg h]

/-- C4: no resurrection. For every id that is tombstoned on one side and
absent on the other, the full reconciliation pass downloads nothing for
that id and leaves the local store's entry for that id exactly as it was
(in particular the local store gains no such id). -/
theorem no_resurrection (uid : String) (now : Nat) (lws rws : List Worksheet)
    (hl : (lws.map Worksheet.id).Nodup) (hr : (rws.map Worksheet.id).Nodup)
    (i : String)
    (htomb :
      (∃ l, lookupId lws i = some l ∧ l.deleted = true ∧ lookupId rws i = none) ∨
      (∃ r, lookupId rws i = some r ∧ r.deleted = true ∧ lookupId lws i = none)) :
    i ∉ (planSync lws rws).toDownload.map Worksheet.id ∧
    lookupId (runSync uid now lws rws).localAfter i = lookupId lws i := by
  have hmark : idMark lws rws i = .noAction := by
    rcases htomb with ⟨l, hlw, hld, hrw⟩ | ⟨r, hrw, hrd, hlw⟩
    · rw [idMark_of_local hlw, hrw]
      simp [markLocal, hld]
    · rw [idMark_of_no_local hlw]
      simp only [hrw]
      simp [hrd]
  constructor
  · intro hmem
    obtain ⟨w, hw, hwi⟩ := List.mem_map.mp hmem
    have : lookupId (planSync lws rws).toDownload i = none := by
      rw [lookupId_toDownload hl hr, if_neg (by rw [hmark]; intro h; cases h)]
    exact lookupId_eq_none_iff.mp this w hw hwi
  · rw [runSync_local_lookup hl hr,
      if_neg (by rw [hmark]; intro h; cases h),
      if_neg (by rw [hmark]; intro h; cases h)]

/-- Witness for C4's theorem: a tombstoned remote-only record is neither
downloaded nor added to the (empty) local store. -/
theorem no_resurrection_witness :
    "a" ∉ (planSync ([] : List Worksheet)
        [(⟨"a", some 1, 0, true, none, none, 0⟩ : Worksheet)]).toDownload.map
          Worksheet.id ∧
    lookupId (runSync "u" 5 ([] : List Worksheet)
        [(⟨"a", some 1, 0, true, none, none, 0⟩ : Worksheet)]).localAfter "a" =
      lookupId ([] : List Worksheet) "a" :=
  no_resurrection "u" 5 [] [⟨"a", some 1, 0, true, none, none, 0⟩]
    (by decide) (by decide) "a"
    (Or.inr ⟨⟨"a", some 1, 0, true, none, none, 0⟩, by decide, rfl, rfl⟩)

/-- Counterexample to C3 as stated: with the local record live at
`updatedAt = 10` and the same-id remote record tombstoned at
`updatedAt = 5`, the local side holds the larger timestamp, yet after the
pass the local store holds nothing for that id at all (the pass hard
deletes it in response to the remote tombstone), so the record with the
larger `updatedAt` is not the one stored locally. -/
theorem lww_counterexample :
    timeOf (⟨"a", some 10, 0, false, none, none, 0⟩ : Worksheet) >
      timeOf (⟨"a", some 5, 0, true, none, none, 0⟩ : Worksheet) ∧
    lookupId (runSync "u" 99
        [(⟨"a", some 10, 0, false, none, none, 0⟩ : Worksheet)]
        [(⟨"a", some 5, 0, true, none, none, 0⟩ : Worksheet)]).localAfter "a" =
      none := by
  constructor
  · decide
  · decide

/-- C3 amended: for every pair of same-id records present on both sides
with equal tombstone state and differing `updatedAt`, the record with the
larger `updatedAt` is the one stored locally after the pass, regardless of
which side held it. (The restriction to equal tombstone state is forced:
when exactly one side is tombstoned the tombstone rules override the
timestamps, as the counterexample shows.) -/
theorem lww_amended (uid : String) (now : Nat) (lws rws : List Worksheet)
    (hl : (lws.map Worksheet.id).Nodup) (hr : (rws.map Worksheet.id).Nodup)
    (i : String) (l r : Worksheet) (lt rt : Nat)
    (hlw : lookupId lws i = some l) (hrw : lookupId rws i = some r)
    (hdel : l.deleted = r.deleted)
    (hlt : l.updatedAt = some lt) (hrt : r.updatedAt = some rt)
    (hne : lt ≠ rt) :
    lookupId (runSync uid now lws rws).localAfter i =
      some (if rt < lt then l else r) := by
  have htl : timeOf l = lt := timeOf_eq_of_updatedAt hlt
  have htr : timeOf r = rt := timeOf_eq_of_updatedAt hrt
  have hmark : idMark lws rws i = markLocal l (some r) := by
    rw [idMark_of_local hlw, hrw]
  rcases Nat.lt_or_ge rt lt with hcmp | hge
  · have hup : markLocal l (some r) = .upload := by
      rw [markLocal_some_upload_iff]
      exact Or.inr ⟨hdel, by rw [htl, htr]; exact hcmp⟩
    rw [runSync_local_lookup hl hr,
      if_neg (by rw [hmark, hup]; intro h; cases h),
      if_neg (by rw [hmark, hup]; intro h; cases h),
      if_pos hcmp]
    exact hlw
  · have hlt2 : lt < rt := Nat.lt_of_le_of_ne hge hne
    have hdn : markLocal l (some r) = .download := by
      rw [markLocal_some_download_iff]
      exact ⟨hdel, by rw [htl, htr]; exact hlt2⟩
    rw [runSync_local_lookup hl hr,
      if_neg (by rw [hmark, hdn]; intro h; cases h),
      if_pos (by rw [hmark, hdn]),
      if_neg (Nat.not_lt.mpr (Nat.le_of_lt hlt2))]
    exact hrw

/-- Witness for the amended C3 theorem: both records live, remote newer —
the remote record ends up stored locally. -/
theorem lww_amended_witness :
    lookupId (runSync "u" 99
        [(⟨"a", some 1, 0, false, none, none, 0⟩ : Worksheet)]
        [(⟨"a", some 2, 0, false, none, none, 0⟩ : Worksheet)]).localAfter "a" =
      some (if (2 : Nat) < 1
        then (⟨"a", some 1, 0, false, none, none, 0⟩ : Worksheet)
        else (⟨"a", some 2, 0, false, none, none, 0⟩ : Worksheet)) :=
  lww_amended "u" 99
    [⟨"a", some 1, 0, false, none, none, 0⟩]
    [⟨"a", some 2, 0, false, none, none, 0⟩]
    (by decide) (by decide) "a"
    ⟨"a", some 1, 0, false, none, none, 0⟩
    ⟨"a", some 2, 0, false, none, none, 0⟩
    1 2 (by decide) (by decide) rfl rfl rfl (by decide)

/-! ### Idempotence of the pass -/

theorem idMark_deleteLocal_elim {lws rws : List Worksheet} {i : String}
    (h : idMark lws rws i = .deleteLocal) :
    ∃ r, lookupId rws i = some r ∧ r.deleted = true := by
  rcases hlw : lookupId lws i with _ | l
  · rw [idMark_of_no_local hlw] at h
    rcases hrw : lookupId rws i with _ | r
    · simp only [hrw] at h
      cases h
    · simp only [hrw] at h
      cases hrd : r.deleted <;> simp [hrd] at h
  · rw [idMark_of_local hlw] at h
    rcases hrw : lookupId rws i with _ | r
    · rw [hrw] at h
      cases hld : l.deleted <;> simp [markLocal, hld] at h
    · rw [hrw, markLocal_some_deleteLocal_iff] at h
      exact ⟨r, rfl, h.1⟩

theorem markLocal_self (r : Worksheet) : markLocal r (some r) = .noAction := by
  cases hrd : r.deleted <;> simp [markLocal, hrd]

theorem markLocal_self_saved (l : Worksheet) (uid : String) (now : Nat) {t : Nat}
    (hlt : l.updatedAt = some t) :
    markLocal l (some (remoteSave uid now l)) = .noAction := by
  have h1 : (remoteSave uid now l).deleted = l.deleted := rfl
  have h2 : timeOf (remoteSave uid now l) = timeOf l := by
    simp [remoteSave, timeOf, hlt]
  cases hld : l.deleted <;> simp [markLocal, h1, hld, h2]

/-- After one full pass, the per-id decision of a second pass over the
resulting stores is `noAction` for every id, provided the local records
carry `updatedAt` (the data-model invariant). -/
theorem idMark_after_runSync (uid : String) (now : Nat) (lws rws : List Worksheet)
    (hl : (lws.map Worksheet.id).Nodup) (hr : (rws.map Worksheet.id).Nodup)
    (hlu : ∀ w ∈ lws, w.updatedAt ≠ none) (i : String) :
    idMark (runSync uid now lws rws).localAfter
      (runSync uid now lws rws).remoteAfter i = .noAction := by
  have hloc := runSync_local_lookup hl hr uid now i
  have hrem := @runSync_remote_lookup lws rws hl uid now i
  rcases hm : idMark lws rws i with _ | _ | _ | _
  · -- first pass uploaded this id
    obtain ⟨l, hlw⟩ := idMark_upload_local_some hm
    rw [hm] at hloc hrem
    simp only [reduceCtorEq, if_false, if_true, if_pos rfl] at hloc hrem
    rw [hlw] at hloc hrem
    rw [idMark_of_local hloc, hrem]
    obtain ⟨t, ht⟩ := Option.ne_none_iff_exists'.mp (hlu l (lookupId_mem hlw).1)
    exact markLocal_self_saved l uid now ht
  · -- first pass downloaded this id
    obtain ⟨r, hrw⟩ := idMark_download_remote_some hm
    rw [hm] at hloc hrem
    simp only [reduceCtorEq, if_false, if_true, if_pos rfl] at hloc hrem
    rw [hrw] at hloc hrem
    rw [idMark_of_local hloc, hrem]
    exact markLocal_self r
  · -- first pass hard-deleted this id locally
    obtain ⟨r, hrw, hrd⟩ := idMark_deleteLocal_elim hm
    rw [hm] at hloc hrem
    simp only [reduceCtorEq, if_false, if_true, if_pos rfl] at hloc hrem
    rw [hrw] at hrem
    rw [idMark_of_no_local hloc]
    simp only [hrem]
    simp [hrd]
  · -- first pass left this id alone
    rw [hm] at hloc hrem
    simp only [reduceCtorEq, if_false, if_true] at hloc hrem
    have heq : idMark (runSync uid now lws rws).localAfter
        (runSync uid now lws rws).remoteAfter i = idMark lws rws i := by
      unfold idMark
      rw [hloc, hrem]
    rw [heq]
    exact hm

theorem planSync_lists_nil_of_noAction {lws rws : List Worksheet}
    (hl : (lws.map Worksheet.id).Nodup) (hr : (rws.map Worksheet.id).Nodup)
    (h : ∀ i, idMark lws rws i = .noAction) :
    (planSync lws rws).toUpload = [] ∧ (planSync lws rws).toDownload = [] ∧
    (planSync lws rws).toDeleteLocally = [] := by
  refine ⟨?_, ?_, ?_⟩
  · refine List.filter_eq_nil.mpr (fun l hl0 => ?_)
    have hmark := h l.id
    rw [idMark_of_local (lookupId_of_mem hl hl0)] at hmark
    simp [hmark]
  · rw [show (planSync lws rws).toDownload =
        (lws.filterMap fun l =>
          match lookupId rws l.id with
          | some r => if markLocal l (some r) == SyncMark.download then some r else none
          | none => none)
        ++ rws.filter (fun r => (lookupId lws r.id).isNone && !r.deleted) from rfl,
      List.append_eq_nil]
    constructor
    · refine List.filterMap_eq_nil.mpr (fun l hl0 => ?_)
      have hmark := h l.id
      rw [idMark_of_local (lookupId_of_mem hl hl0)] at hmark
      rcases hrw : lookupId rws l.id with _ | r
      · rfl
      · rw [hrw] at hmark
        simp [hmark]
    · refine List.filter_eq_nil.mpr (fun r hr0 => ?_)
      have hmark := h r.id
      rcases hlw : lookupId lws r.id with _ | l
      · rw [idMark_of_no_local hlw] at hmark
        simp only [lookupId_of_mem hr hr0] at hmark
        have hrd : r.deleted = true := by
          by_contra hc
          rw [Bool.not_eq_true] at hc
          rw [hc] at hmark
          simp at hmark
        simp [hrd]
      · simp [hlw]
  · refine List.filterMap_eq_nil.mpr (fun l hl0 => ?_)
    have hmark := h l.id
    rw [idMark_of_local (lookupId_of_mem hl hl0)] at hmark
    simp [hmark]

/-- C2: idempotence of reconciliation. Running the full pass twice in a
row, with no local or remote writes in between, reports
`{uploaded := 0, downloaded := 0, deleted := 0}` on the second run, for
every starting pair of record sets drawn from the id-keyed stores whose
local records carry `updatedAt` (the data model sets `updatedAt` on every
mutation). -/
theorem sync_idempotent (uid : String) (now now2 : Nat) (lws rws : List Worksheet)
    (hl : (lws.map Worksheet.id).Nodup) (hr : (rws.map Worksheet.id).Nodup)
    (hlu : ∀ w ∈ lws, w.updatedAt ≠ none) :
    (runSync uid now2 (runSync uid now lws rws).localAfter
        (runSync uid now lws rws).remoteAfter).uploaded = 0 ∧
    (runSync uid now2 (runSync uid now lws rws).localAfter
        (runSync uid now lws rws).remoteAfter).downloaded = 0 ∧
    (runSync uid now2 (runSync uid now lws rws).localAfter
        (runSync uid now lws rws).remoteAfter).deletedCount = 0 := by
  have hL : (((runSync uid now lws rws).localAfter).map Worksheet.id).Nodup := by
    show ((((planSync lws rws).toDeleteLocally.foldl removeId
        ((planSync lws rws).toDownload.foldl upsert lws))).map Worksheet.id).Nodup
    exact foldl_removeId_ids_nodup _
      (foldl_upsert_ids_nodup (fun w => w) _ hl)
  have hR : (((runSync uid now lws rws).remoteAfter).map Worksheet.id).Nodup := by
    show ((((planSync lws rws).toUpload.foldl
        (fun acc w => upsert acc (remoteSave uid now w)) rws)).map Worksheet.id).Nodup
    exact foldl_upsert_ids_nodup (remoteSave uid now) _ hr
  obtain ⟨h1, h2, h3⟩ := planSync_lists_nil_of_noAction hL hR
    (idMark_after_runSync uid now lws rws hl hr hlu)
  refine ⟨?_, ?_, ?_⟩
  · show ((planSync (runSync uid now lws rws).localAfter
        (runSync uid now lws rws).remoteAfter).toUpload).length = 0
    rw [h1]
    rfl
  · show ((planSync (runSync uid now lws rws).localAfter
        (runSync uid now lws rws).remoteAfter).toDownload).length = 0
    rw [h2]
    rfl
  · show ((planSync (runSync uid now lws rws).localAfter
        (runSync uid now lws rws).remoteAfter).toDeleteLocally).length = 0
    rw [h3]
    rfl

/-- Witness for C2's theorem: a concrete one-record-per-side instance —
the second run reports zero uploads, downloads and deletes. -/
theorem sync_idempotent_witness :
    (runSync "u" 8
        (runSync "u" 7 [(⟨"a", some 3, 0, false, none, none, 0⟩ : Worksheet)]
          [(⟨"b", some 4, 0, false, none, none, 0⟩ : Worksheet)]).localAfter
        (runSync "u" 7 [(⟨"a", some 3, 0, false, none, none, 0⟩ : Worksheet)]
          [(⟨"b", some 4, 0, false, none, none, 0⟩ : Worksheet)]).remoteAfter).uploaded
      = 0 ∧
    (runSync "u" 8
        (runSync "u" 7 [(⟨"a", some 3, 0, false, none, none, 0⟩ : Worksheet)]
          [(⟨"b", some 4, 0, false, none, none, 0⟩ : Worksheet)]).localAfter
        (runSync "u" 7 [(⟨"a", some 3, 0, false, none, none, 0⟩ : Worksheet)]
          [(⟨"b", some 4, 0, false, none, none, 0⟩ : Worksheet)]).remoteAfter).downloaded
      = 0 ∧
    (runSync "u" 8
        (runSync "u" 7 [(⟨"a", some 3, 0, false, none, none, 0⟩ : Worksheet)]
          [(⟨"b", some 4, 0, false, none, none, 0⟩ : Worksheet)]).localAfter
        (runSync "u" 7 [(⟨"a", some 3, 0, false, none, none, 0⟩ : Worksheet)]
          [(⟨"b", some 4, 0, false, none, none, 0⟩ : Worksheet)]).remoteAfter).deletedCount
      = 0 :=
  sync_idempotent "u" 7 8
    [⟨"a", some 3, 0, false, none, none, 0⟩]
    [⟨"b", some 4, 0, false, none, none, 0⟩]
    (by decide) (by decide) (by decide)

/-! ### Which fields the pass consults -/

/-- Agreement on the fields the reconciliation decision is supposed to
read: `id`, `deleted` and `updatedAt` (all other fields free to differ). -/
def agreeKey (a b : Worksheet) : Prop :=
  a.id = b.id ∧ a.deleted = b.deleted ∧ a.updatedAt = b.updatedAt

theorem lookup_rel {ws₁ ws₂ : List Worksheet}
    (h : List.Forall₂ agreeKey ws₁ ws₂) (i : String) :
    (lookupId ws₁ i = none ∧ lookupId ws₂ i = none) ∨
    (∃ w₁ w₂, lookupId ws₁ i = some w₁ ∧ lookupId ws₂ i = some w₂ ∧
      w₁ ∈ ws₁ ∧ agreeKey w₁ w₂) := by
  induction h with
  | nil => exact Or.inl ⟨rfl, rfl⟩
  | cons ha htail ih =>
    rename_i a₁ a₂ l₁ l₂
    by_cases hx : a₁.id = i
    · right
      refine ⟨a₁, a₂, by rw [lookupId_cons, if_pos hx], ?_,
        List.mem_cons_self _ _, ha⟩
      rw [lookupId_cons, if_pos (by rw [← ha.1]; exact hx)]
    · have hx₂ : ¬ a₂.id = i := by rw [← ha.1]; exact hx
      rw [show lookupId (a₁ :: l₁) i = lookupId l₁ i from by
          rw [lookupId_cons, if_neg hx],
        show lookupId (a₂ :: l₂) i = lookupId l₂ i from by
          rw [lookupId_cons, if_neg hx₂]]
      rcases ih with ⟨h1, h2⟩ | ⟨w₁, w₂, h1, h2, hm, hrel⟩
      · exact Or.inl ⟨h1, h2⟩
      · exact Or.inr ⟨w₁, w₂, h1, h2, List.mem_cons_of_mem _ hm, hrel⟩

theorem timeOf_agree {a b : Worksheet} (h : a.updatedAt = b.updatedAt)
    (ha : a.updatedAt ≠ none) : timeOf a = timeOf b := by
  rcases hx : a.updatedAt with _ | t
  · exact absurd hx ha
  · have hb : b.updatedAt = some t := by rw [← h, hx]
    simp [timeOf, hx, hb]

theorem markLocal_congr {l₁ l₂ r₁ r₂ : Worksheet}
    (hld : l₁.deleted = l₂.deleted) (hrd : r₁.deleted = r₂.deleted)
    (htl : timeOf l₁ = timeOf l₂) (htr : timeOf r₁ = timeOf r₂) :
    markLocal l₁ (some r₁) = markLocal l₂ (some r₂) := by
  simp only [markLocal, hld, hrd, htl, htr]

theorem markLocal_lookup_agree {rws₁ rws₂ : List Worksheet}
    (hR : List.Forall₂ agreeKey rws₁ rws₂)
    (hru : ∀ w ∈ rws₁, w.updatedAt ≠ none)
    {w₁ w₂ : Worksheet} (hw : agreeKey w₁ w₂) (hwu : w₁.updatedAt ≠ none) :
    markLocal w₁ (lookupId rws₁ w₁.id) = markLocal w₂ (lookupId rws₂ w₂.id) := by
  have hid : w₂.id = w₁.id := hw.1.symm
  rw [hid]
  rcases lookup_rel hR w₁.id with ⟨h1, h2⟩ | ⟨r₁, r₂, h1, h2, hm, hrel⟩
  · rw [h1, h2]
    simp [markLocal, hw.2.1]
  · rw [h1, h2]
    exact markLocal_congr hw.2.1 hrel.2.1 (timeOf_agree hw.2.2 hwu)
      (timeOf_agree hrel.2.2 (hru r₁ hm))

theorem filter_map_id_agree (p₁ p₂ : Worksheet → Bool) :
    ∀ {ws₁ ws₂}, List.Forall₂ agreeKey ws₁ ws₂ →
    (∀ w₁ ∈ ws₁, ∀ w₂, agreeKey w₁ w₂ → p₁ w₁ = p₂ w₂) →
    (ws₁.filter p₁).map Worksheet.id = (ws₂.filter p₂).map Worksheet.id := by
  intro ws₁ ws₂ h
  induction h with
  | nil => intro _; rfl
  | cons ha htail ih =>
    rename_i a₁ a₂ l₁ l₂
    intro hp
    rw [List.filter_cons, List.filter_cons, hp a₁ (List.mem_cons_self _ _) a₂ ha]
    have ihr := ih (fun w hw w₂ hrel => hp w (List.mem_cons_of_mem _ hw) w₂ hrel)
    cases hpa : p₂ a₂
    · rw [if_neg (by simp), if_neg (by simp)]
      exact ihr
    · rw [if_pos rfl, if_pos rfl, List.map_cons, List.map_cons, ihr, ha.1]

theorem filterMap_map_id_agree (g₁ g₂ : Worksheet → Option Worksheet) :
    ∀ {ws₁ ws₂}, List.Forall₂ agreeKey ws₁ ws₂ →
    (∀ w₁ ∈ ws₁, ∀ w₂, agreeKey w₁ w₂ →
      (g₁ w₁).map Worksheet.id = (g₂ w₂).map Worksheet.id) →
    (ws₁.filterMap g₁).map Worksheet.id = (ws₂.filterMap g₂).map Worksheet.id := by
  intro ws₁ ws₂ h
  induction h with
  | nil => intro _; rfl
  | cons ha htail ih =>
    rename_i a₁ a₂ l₁ l₂
    intro hp
    have hrel := hp a₁ (List.mem_cons_self _ _) a₂ ha
    have ihr := ih (fun w hw w₂ hr => hp w (List.mem_cons_of_mem _ hw) w₂ hr)
    rw [List.filterMap_cons, List.filterMap_cons]
    rcases h1 : g₁ a₁ with _ | r₁ <;> rcases h2 : g₂ a₂ with _ | r₂
    · exact ihr
    · rw [h1, h2] at hrel
      cases hrel
    · rw [h1, h2] at hrel
      cases hrel
    · rw [h1, h2] at hrel
      rw [List.map_cons, List.map_cons, ihr]
      injection hrel with hrel
      rw [hrel]

theorem filterMap_str_agree (g₁ g₂ : Worksheet → Option String) :
    ∀ {ws₁ ws₂}, List.Forall₂ agreeKey ws₁ ws₂ →
    (∀ w₁ ∈ ws₁, ∀ w₂, agreeKey w₁ w₂ → g₁ w₁ = g₂ w₂) →
    ws₁.filterMap g₁ = ws₂.filterMap g₂ := by
  intro ws₁ ws₂ h
  induction h with
  | nil => intro _; rfl
  | cons ha htail ih =>
    rename_i a₁ a₂ l₁ l₂
    intro hp
    rw [List.filterMap_cons, List.filterMap_cons,
      hp a₁ (List.mem_cons_self _ _) a₂ ha,
      ih (fun w hw w₂ hr => hp w (List.mem_cons_of_mem _ hw) w₂ hr)]

/-- Counterexample to C8 as stated: two runs whose input record sets agree
on every record's id, deleted flag and updatedAt (absent in both runs, and
the remote record literally shared) but differ in the `date` field mark
different id sets for upload — the code reads `date` as a fallback
ordering key when `updatedAt` is absent (`local.updatedAt || local.date`). -/
theorem ordering_signal_counterexample :
    agreeKey (⟨"a", none, 5, false, none, none, 0⟩ : Worksheet)
      (⟨"a", none, 1, false, none, none, 0⟩ : Worksheet) ∧
    (planSync [(⟨"a", none, 5, false, none, none, 0⟩ : Worksheet)]
        [(⟨"a", none, 3, false, none, none, 0⟩ : Worksheet)]).toUpload.map
          Worksheet.id ≠
    (planSync [(⟨"a", none, 1, false, none, none, 0⟩ : Worksheet)]
        [(⟨"a", none, 3, false, none, none, 0⟩ : Worksheet)]).toUpload.map
          Worksheet.id :=
  ⟨⟨rfl, rfl, rfl⟩, by decide⟩

/-- C8 amended: `updatedAt` is the ordering signal and `syncedAt` (or any
other field) is never consulted, provided every record carries `updatedAt`:
two runs of the pass on input record sets that agree pointwise on every
record's id, deleted flag and (present) updatedAt — but may differ in any
other field, such as `syncedAt` or `date` — mark identical id sequences
for upload, download and local hard delete. (The restriction to present
`updatedAt` is forced: when `updatedAt` is absent the code falls back to
the `date` field, as the counterexample shows.) -/
theorem ordering_signal_amended (lws₁ rws₁ lws₂ rws₂ : List Worksheet)
    (hL : List.Forall₂ agreeKey lws₁ lws₂) (hR : List.Forall₂ agreeKey rws₁ rws₂)
    (hlu : ∀ w ∈ lws₁, w.updatedAt ≠ none) (hru : ∀ w ∈ rws₁, w.updatedAt ≠ none) :
    (planSync lws₁ rws₁).toUpload.map Worksheet.id =
      (planSync lws₂ rws₂).toUpload.map Worksheet.id ∧
    (planSync lws₁ rws₁).toDownload.map Worksheet.id =
      (planSync lws₂ rws₂).toDownload.map Worksheet.id ∧
    (planSync lws₁ rws₁).toDeleteLocally = (planSync lws₂ rws₂).toDeleteLocally := by
  refine ⟨?_, ?_, ?_⟩
  · exact filter_map_id_agree _ _ hL (fun w₁ hw w₂ hrel => by
      rw [markLocal_lookup_agree hR hru hrel (hlu w₁ hw)])
  · have e1 := filterMap_map_id_agree
      (fun l => match lookupId rws₁ l.id with
        | some r => if markLocal l (some r) == SyncMark.download then some r else none
        | none => none)
      (fun l => match lookupId rws₂ l.id with
        | some r => if markLocal l (some r) == SyncMark.download then some r else none
        | none => none)
      hL
      (fun w₁ hw w₂ hrel => by
        have hid : w₂.id = w₁.id := hrel.1.symm
        dsimp only
        rw [hid]
        rcases lookup_rel hR w₁.id with ⟨h1, h2⟩ | ⟨r₁, r₂, h1, h2, hm, hrr⟩
        · simp only [h1, h2]
        · simp only [h1, h2]
          have hmk : markLocal w₁ (some r₁) = markLocal w₂ (some r₂) :=
            markLocal_congr hrel.2.1 hrr.2.1 (timeOf_agree hrel.2.2 (hlu w₁ hw))
              (timeOf_agree hrr.2.2 (hru r₁ hm))
          rw [hmk]
          cases hdc : (markLocal w₂ (some r₂) == SyncMark.download)
          · rw [if_neg (by simp), if_neg (by simp)]
          · rw [if_pos rfl, if_pos rfl]
            simp [hrr.1])
    have e2 := filter_map_id_agree
      (fun r => (lookupId lws₁ r.id).isNone && !r.deleted)
      (fun r => (lookupId lws₂ r.id).isNone && !r.deleted)
      hR
      (fun r₁ hrm r₂ hrel => by
        have hid : r₂.id = r₁.id := hrel.1.symm
        dsimp only
        rw [hid, hrel.2.1]
        rcases lookup_rel hL r₁.id with ⟨h1, h2⟩ | ⟨w₁, w₂, h1, h2, _, _⟩
        · simp [h1, h2]
        · simp [h1, h2])
    show ((lws₁.filterMap fun l => match lookupId rws₁ l.id with
        | some r => if markLocal l (some r) == SyncMark.download then some r else none
        | none => none)
      ++ rws₁.filter fun r => (lookupId lws₁ r.id).isNone && !r.deleted).map
        Worksheet.id
      = ((lws₂.filterMap fun l => match lookupId rws₂ l.id with
        | some r => if markLocal l (some r) == SyncMark.download then some r else none
        | none => none)
      ++ rws₂.filter fun r => (lookupId lws₂ r.id).isNone && !r.deleted).map
        Worksheet.id
    rw [List.map_append, List.map_append, e1, e2]
  · exact filterMap_str_agree _ _ hL (fun w₁ hw w₂ hrel => by
      rw [markLocal_lookup_agree hR hru hrel (hlu w₁ hw), hrel.1])

/-- Witness for the amended C8 theorem: the two runs differ in `syncedAt`,
`userId`, `date` and the opaque payload, agree on id/deleted/updatedAt,
and mark the same id lists. -/
theorem ordering_signal_amended_witness :
    (planSync [(⟨"a", some 2, 0, false, none, none, 0⟩ : Worksheet)]
        [(⟨"a", some 1, 3, false, none, none, 0⟩ : Worksheet)]).toUpload.map
          Worksheet.id =
      (planSync [(⟨"a", some 2, 7, false, some 9, some "u", 4⟩ : Worksheet)]
        [(⟨"a", some 1, 8, false, some 6, some "v", 5⟩ : Worksheet)]).toUpload.map
          Worksheet.id ∧
    (planSync [(⟨"a", some 2, 0, false, none, none, 0⟩ : Worksheet)]
        [(⟨"a", some 1, 3, false, none, none, 0⟩ : Worksheet)]).toDownload.map
          Worksheet.id =
      (planSync [(⟨"a", some 2, 7, false, some 9, some "u", 4⟩ : Worksheet)]
        [(⟨"a", some 1, 8, false, some 6, some "v", 5⟩ : Worksheet)]).toDownload.map
          Worksheet.id ∧
    (planSync [(⟨"a", some 2, 0, false, none, none, 0⟩ : Worksheet)]
        [(⟨"a", some 1, 3, false, none, none, 0⟩ : Worksheet)]).toDeleteLocally =
      (planSync [(⟨"a", some 2, 7, false, some 9, some "u", 4⟩ : Worksheet)]
        [(⟨"a", some 1, 8, false, some 6, some "v", 5⟩ : Worksheet)]).toDeleteLocally :=
  ordering_signal_amended
    [⟨"a", some 2, 0, false, none, none, 0⟩]
    [⟨"a", some 1, 3, false, none, none, 0⟩]
    [⟨"a", some 2, 7, false, some 9, some "u", 4⟩]
    [⟨"a", some 1, 8, false, some 6, some "v", 5⟩]
    (List.Forall₂.cons ⟨rfl, rfl, rfl⟩ List.Forall₂.nil)
    (List.Forall₂.cons ⟨rfl, rfl, rfl⟩ List.Forall₂.nil)
    (by decide) (by decide)

/-! ### The engine: connectivity, queueing, events

State machine embedding of the `SyncService` class. Remote-store failures
are injected as parameters (`Option JsError`: `none` = the store call
succeeds, `some e` = it throws `e`); a method that JavaScript lets throw
returns `Except JsError` alongside the updated state. The `saveCalls`
trace records each attempted `db.saveWorksheet` call. -/

/-- A JavaScript error as the engine reads it: `message` and `code`. -/
structure JsError where
  message : String
  code : String
deriving DecidableEq, Repr

/-- `error.message?.includes(msg)`: substring test. -/
def strIncludes (s sub : String) : Bool :=
  decide (sub.toList <:+: s.toList)

/-- The fixed marker vocabulary of `isAuthError` (sync-service.js lines
212-227). -/
def authErrorMessages : List String :=
  ["Authentication expired", "Please sign in again", "permission-denied",
    "unauthenticated"]

/-- `SyncService.isAuthError`: an error is an authentication failure iff
its message or code contains one of the markers. -/
def isAuthError (e : JsError) : Bool :=
  authErrorMessages.any fun m => strIncludes e.message m || strIncludes e.code m

/-- Events delivered to listeners via `notifyListeners`. -/
inductive SyncEvent
  | online
  | offline
  | syncStartedEv
  | syncStoppedEv
  | syncProgressInitial
  | syncProgressComplete (uploaded downloaded deletedCount : Nat)
  | syncErrorEv (e : JsError)
  | authErrorEv (e : JsError)
  | worksheetSynced (id : String)
deriving DecidableEq, Repr

/-- An entry of the `pendingSyncs` retry queue: `{type: 'upload', data}`. -/
inductive PendingType
  | upload
deriving DecidableEq, Repr

structure PendingSync where
  type : PendingType
  data : Worksheet
deriving DecidableEq, Repr

/-- The mutable state of a `SyncService` instance, plus the event and
remote-save-call traces used to state the claims. -/
structure EngineState where
  isOnline : Bool
  authed : Bool
  userId : String
  pendingSyncs : List PendingSync
  localStore : List Worksheet
  remoteStore : List Worksheet
  events : List SyncEvent
  saveCalls : List String
  syncStarted : Bool
  syncInProgress : Bool
  subscribed : Bool
deriving Repr

/-- `notifyListeners(event, ...)` as it affects the engine: the event is
appended to the trace; the engine's own fields are untouched. -/
def emit (st : EngineState) (e : SyncEvent) : EngineState :=
  { st with events := st.events ++ [e] }

/-- `syncWorksheetToCloud(worksheet)` (sync-service.js lines 229-269):
queue when unauthenticated or offline; otherwise attempt the remote save,
on success stamp `syncedAt` locally and emit `worksheet-synced`; on an
auth-classified failure emit `auth-error`, do not queue, rethrow; on any
other failure queue for retry and rethrow. -/
def syncWorksheetToCloud (st : EngineState) (w : Worksheet) (now : Nat)
    (outcome : Option JsError) : EngineState × Except JsError Unit :=
  if !st.authed then
    ({ st with pendingSyncs := st.pendingSyncs ++ [⟨.upload, w⟩] }, .ok ())
  else if !st.isOnline then
    ({ st with pendingSyncs := st.pendingSyncs ++ [⟨.upload, w⟩] }, .ok ())
  else
    let st := { st with saveCalls := st.saveCalls ++ [w.id] }
    match outcome with
    | none =>
      let st := { st with
        remoteStore := upsert st.remoteStore (remoteSave st.userId now w) }
      let st := { st with
        localStore := upsert st.localStore { w with syncedAt := some now } }
      (emit st (.worksheetSynced w.id), .ok ())
    | some e =>
      if isAuthError e then
        (emit st (.authErrorEv e), .error e)
      else
        ({ st with pendingSyncs := st.pendingSyncs ++ [⟨.upload, w⟩] },
          .error e)

/-- One iteration of the drain loop of `processPendingSyncs`: attempt the
item through `syncWorksheetToCloud`; if the attempt threw, re-append the
item at the back of the queue. -/
def drainStep (now : Nat) (outcome : Worksheet → Option JsError)
    (acc : EngineState) (item : PendingSync) : EngineState :=
  match item.type with
  | .upload =>
    match syncWorksheetToCloud acc item.data now (outcome item.data) with
    | (acc', .ok _) => acc'
    | (acc', .error _) =>
      { acc' with pendingSyncs := acc'.pendingSyncs ++ [item] }

/-- `processPendingSyncs()` (sync-service.js lines 271-294): return unless
online and authenticated; snapshot the queue, clear it, attempt each item
in FIFO order through `syncWorksheetToCloud`, and re-append any item whose
attempt threw. -/
def processPendingSyncs (st : EngineState) (now : Nat)
    (outcome : Worksheet → Option JsError) : EngineState :=
  if !st.isOnline || !st.authed then st
  else
    let pending := st.pendingSyncs
    let st := { st with pendingSyncs := [] }
    pending.foldl (drainStep now outcome) st

/-- The `'online'` browser event handler (sync-service.js lines 17-21):
set the flag, emit `online`, drain the queue. -/
def goOnline (st : EngineState) (now : Nat)
    (outcome : Worksheet → Option JsError) : EngineState :=
  processPendingSyncs (emit { st with isOnline := true } .online) now outcome

/-- `stopSync()` (sync-service.js lines 80-90): drop the subscription,
clear the single-flight flag, emit `sync-stopped`. -/
def stopSync (st : EngineState) : EngineState :=
  emit { st with subscribed := false, syncStarted := false } .syncStoppedEv

/-- `performInitialSync()` (sync-service.js lines 92-207): the in-progress
guard, the `initial-sync` progress event, the reconciliation pass
(`runSync`), the `complete` progress event with counts — and, on an
injected failure: the auth-error handling (emit `auth-error` and
`stopSync()`) and the rethrow of the error to the direct caller. -/
def performInitialSync (st : EngineState) (now : Nat)
    (failure : Option JsError) : EngineState × Except JsError Unit :=
  if st.syncInProgress then (st, .ok ())
  else
    let st := { st with syncInProgress := true }
    let st := emit st .syncProgressInitial
    match failure with
    | some e =>
      let st := if isAuthError e then stopSync (emit st (.authErrorEv e)) else st
      ({ st with syncInProgress := false }, .error e)
    | none =>
      let r := runSync st.userId now st.localStore st.remoteStore
      let st := { st with localStore := r.localAfter, remoteStore := r.remoteAfter }
      let st := emit st (.syncProgressComplete r.uploaded r.downloaded r.deletedCount)
      ({ st with syncInProgress := false }, .ok ())

/-- `startSync()` (sync-service.js lines 49-78): requires authentication;
single-flight guarded; on success runs the full pass then opens the
subscription; on failure resets the flag and emits `sync-error`. Never
throws to its caller. -/
def startSync (st : EngineState) (now : Nat)
    (failure : Option JsError) : EngineState :=
  if !st.authed then st
  else if st.syncStarted then st
  else
    let st := { st with syncStarted := true }
    let st := emit st .syncStartedEv
    match performInitialSync st now failure with
    | (st', .ok _) => { st' with subscribed := true }
    | (st', .error e) =>
      emit { st' with syncStarted := false } (.syncErrorEv e)

/-- One listener callback: it may throw (`Except.error`). -/
def ListenerFn : Type := SyncEvent → Except JsError Unit

/-- The notification loop of `notifyListeners` (sync-service.js lines
366-374): every listener is called in registration order inside a
`try`/`catch`, so each call's outcome is collected and no exception
escapes or stops the loop. -/
def notifyResults (ev : SyncEvent) : List ListenerFn → List (Except JsError Unit)
  | [] => []
  | l :: ls => l ev :: notifyResults ev ls

/-! ### Computation lemmas for the upload path -/

theorem syncToCloud_queue_offline (st : EngineState) (w : Worksheet) (now : Nat)
    (outcome : Option JsError) (h : st.authed = false ∨ st.isOnline = false) :
    syncWorksheetToCloud st w now outcome =
      ({ st with pendingSyncs := st.pendingSyncs ++ [⟨.upload, w⟩] }, .ok ()) := by
  rcases h with h | h
  · simp [syncWorksheetToCloud, h]
  · cases ha : st.authed <;> simp [syncWorksheetToCloud, h, ha]

theorem syncToCloud_ok (st : EngineState) (w : Worksheet) (now : Nat)
    (ha : st.authed = true) (ho : st.isOnline = true) :
    syncWorksheetToCloud st w now none =
      (emit { st with
          saveCalls := st.saveCalls ++ [w.id],
          remoteStore := upsert st.remoteStore (remoteSave st.userId now w),
          localStore := upsert st.localStore { w with syncedAt := some now } }
        (.worksheetSynced w.id), .ok ()) := by
  simp [syncWorksheetToCloud, ha, ho]

theorem syncToCloud_auth_error (st : EngineState) (w : Worksheet) (now : Nat)
    (e : JsError) (hauth : isAuthError e = true) (ha : st.authed = true)
    (ho : st.isOnline = true) :
    syncWorksheetToCloud st w now (some e) =
      (emit { st with saveCalls := st.saveCalls ++ [w.id] } (.authErrorEv e),
        .error e) := by
  simp [syncWorksheetToCloud, ha, ho, hauth]

theorem syncToCloud_transient_error (st : EngineState) (w : Worksheet) (now : Nat)
    (e : JsError) (hauth : isAuthError e = false) (ha : st.authed = true)
    (ho : st.isOnline = true) :
    syncWorksheetToCloud st w now (some e) =
      ({ st with
          saveCalls := st.saveCalls ++ [w.id],
          pendingSyncs := st.pendingSyncs ++ [⟨.upload, w⟩] }, .error e) := by
  simp [syncWorksheetToCloud, ha, ho, hauth]

/-- Recognizer for `auth-error` events, to count emissions. -/
def isAuthErrorEvent : SyncEvent → Bool
  | .authErrorEv _ => true
  | _ => false

/-- Counterexample to C5 as stated: with the engine online and
authenticated and the queue holding one item, draining the queue against a
remote save that fails with the auth-classified error `permission-denied`
leaves the failed record in the retry queue — the drain loop catches the
rethrown auth error and re-appends the item, so "never added to the
pending retry queue, including while draining" is false on the code. -/
theorem auth_retry_counterexample :
    isAuthError ⟨"permission-denied", ""⟩ = true ∧
    (processPendingSyncs
        ⟨true, true, "u",
          [⟨.upload, ⟨"a", some 1, 0, false, none, none, 0⟩⟩],
          [], [], [], [], false, false, false⟩ 1
        (fun _ => some ⟨"permission-denied", ""⟩)).pendingSyncs =
      [⟨.upload, ⟨"a", some 1, 0, false, none, none, 0⟩⟩] ∧
    (processPendingSyncs
        ⟨true, true, "u",
          [⟨.upload, ⟨"a", some 1, 0, false, none, none, 0⟩⟩],
          [], [], [], [], false, false, false⟩ 1
        (fun _ => some ⟨"permission-denied", ""⟩)).events.countP isAuthErrorEvent
      = 1 := by
  refine ⟨by decide, by decide, by decide⟩

/-- C5 amended: an upload failing with an authentication-classified error
through the direct `syncWorksheetToCloud` path is not queued (the queue is
left exactly as it was) and emits exactly one `auth-error` event per
occurrence; however, when the failing upload was attempted while draining
the queue, the drain loop re-appends the queued item (the auth error still
produces exactly one `auth-error` event). -/
theorem auth_failure_non_retry_amended (st : EngineState) (w : Worksheet)
    (now : Nat) (e : JsError) (hauth : isAuthError e = true)
    (ha : st.authed = true) (ho : st.isOnline = true) :
    ((syncWorksheetToCloud st w now (some e)).1.pendingSyncs = st.pendingSyncs ∧
     (syncWorksheetToCloud st w now (some e)).1.events.countP isAuthErrorEvent =
       st.events.countP isAuthErrorEvent + 1 ∧
     (syncWorksheetToCloud st w now (some e)).2 = Except.error e) ∧
    (st.pendingSyncs = [⟨.upload, w⟩] →
      (processPendingSyncs st now (fun _ => some e)).pendingSyncs =
        [⟨.upload, w⟩] ∧
      (processPendingSyncs st now (fun _ => some e)).events.countP
          isAuthErrorEvent = st.events.countP isAuthErrorEvent + 1) := by
  constructor
  · rw [syncToCloud_auth_error st w now e hauth ha ho]
    refine ⟨rfl, ?_, rfl⟩
    simp [emit, List.countP_append, isAuthErrorEvent]
  · intro hq
    have hstep := syncToCloud_auth_error
      { st with isOnline := true, authed := true, pendingSyncs := [] } w now e
      hauth rfl rfl
    simp only [processPendingSyncs, ha, ho, hq, Bool.not_true, Bool.or_self,
      Bool.false_eq_true, if_false, List.foldl_cons, List.foldl_nil, drainStep]
    simp only [hstep]
    refine ⟨rfl, ?_⟩
    simp [emit, List.countP_append, isAuthErrorEvent]

/-- Witness for the amended C5 theorem: a concrete online, authenticated
state whose queue holds one record; the drain against an auth-failing save
emits exactly one `auth-error` event. -/
theorem auth_failure_non_retry_amended_witness :
    (processPendingSyncs
        ⟨true, true, "u",
          [⟨.upload, ⟨"a", some 1, 0, false, none, none, 0⟩⟩],
          [], [], [], [], false, false, false⟩ 1
        (fun _ => some ⟨"unauthenticated", ""⟩)).events.countP isAuthErrorEvent =
      (⟨true, true, "u",
          [⟨.upload, ⟨"a", some 1, 0, false, none, none, 0⟩⟩],
          [], [], [], [], false, false, false⟩ : EngineState).events.countP
        isAuthErrorEvent + 1 :=
  ((auth_failure_non_retry_amended
      ⟨true, true, "u",
        [⟨.upload, ⟨"a", some 1, 0, false, none, none, 0⟩⟩],
        [], [], [], [], false, false, false⟩
      ⟨"a", some 1, 0, false, none, none, 0⟩ 1
      ⟨"unauthenticated", ""⟩ (by decide) rfl rfl).2 rfl).2

theorem drainStep_ok (now : Nat) (outcome : Worksheet → Option JsError)
    (item : PendingSync) (acc : EngineState) (h : outcome item.data = none)
    (ha : acc.authed = true) (ho : acc.isOnline = true) :
    drainStep now outcome acc item =
      emit { acc with
          saveCalls := acc.saveCalls ++ [item.data.id],
          remoteStore := upsert acc.remoteStore (remoteSave acc.userId now item.data),
          localStore := upsert acc.localStore
            { item.data with syncedAt := some now } }
        (.worksheetSynced item.data.id) := by
  obtain ⟨t, d⟩ := item
  cases t
  simp only [drainStep] at *
  rw [h, syncToCloud_ok acc d now ha ho]

theorem drain_foldl_ok (now : Nat) (outcome : Worksheet → Option JsError)
    (hout : ∀ w, outcome w = none) (q : List PendingSync) :
    ∀ st : EngineState, st.authed = true → st.isOnline = true →
      (q.foldl (drainStep now outcome) st).pendingSyncs = st.pendingSyncs ∧
      (q.foldl (drainStep now outcome) st).saveCalls =
        st.saveCalls ++ q.map (fun i => i.data.id) ∧
      (q.foldl (drainStep now outcome) st).authed = true ∧
      (q.foldl (drainStep now outcome) st).isOnline = true := by
  induction q with
  | nil =>
    intro st ha ho
    exact ⟨rfl, by simp, ha, ho⟩
  | cons item q ih =>
    intro st ha ho
    rw [List.foldl_cons, drainStep_ok now outcome item st (hout _) ha ho]
    obtain ⟨h1, h2, h3, h4⟩ := ih
      (emit { st with
          saveCalls := st.saveCalls ++ [item.data.id],
          remoteStore := upsert st.remoteStore (remoteSave st.userId now item.data),
          localStore := upsert st.localStore
            { item.data with syncedAt := some now } }
        (.worksheetSynced item.data.id))
      ha ho
    refine ⟨?_, ?_, h3, h4⟩
    · rw [h1]
      simp [emit]
    · rw [h2]
      simp [emit, List.append_assoc]

/-- C6: offline queuing round-trip. (1) When the engine is offline or
unauthenticated, `syncWorksheetToCloud(w)` returns without throwing and
appends `{type: upload, data: w}` to the pending queue. (2) A subsequent
transition to online drains the queue in FIFO order; when the remote saves
succeed this results in exactly one remote save call per queued item (in
queue order) with the queue returning to empty — in particular exactly one
save call for `w.id` when `w` was the queued record. (3) A queued item
whose retry fails (with a retryable error) is re-appended at the back of
the queue rather than dropped. -/
theorem offline_queue_roundtrip (now : Nat) :
    (∀ (st : EngineState) (w : Worksheet) (outcome : Option JsError),
      st.authed = false ∨ st.isOnline = false →
      syncWorksheetToCloud st w now outcome =
        ({ st with pendingSyncs := st.pendingSyncs ++ [⟨.upload, w⟩] },
          .ok ())) ∧
    (∀ st : EngineState, st.authed = true →
      (goOnline st now (fun _ => none)).pendingSyncs = [] ∧
      (goOnline st now (fun _ => none)).saveCalls =
        st.saveCalls ++ st.pendingSyncs.map (fun i => i.data.id)) ∧
    (∀ (st : EngineState) (w : Worksheet) (e : JsError), st.authed = true →
      st.pendingSyncs = [⟨.upload, w⟩] → isAuthError e = false →
      (goOnline st now (fun _ => some e)).pendingSyncs.getLast? =
        some ⟨.upload, w⟩) := by
  refine ⟨fun st w outcome h => syncToCloud_queue_offline st w now outcome h, ?_, ?_⟩
  · intro st ha
    have h := drain_foldl_ok now (fun _ => none) (fun _ => rfl)
      ((emit { st with isOnline := true } .online).pendingSyncs)
      { (emit { st with isOnline := true } .online) with pendingSyncs := [] }
      ha rfl
    simp only [goOnline, processPendingSyncs, emit, Bool.not_true,
      Bool.false_or, ha, Bool.not_false, Bool.or_false, if_false] at h ⊢
    exact ⟨h.1, h.2.1⟩
  · intro st w e ha hq hna
    have hstep := syncToCloud_transient_error
      { st with
          isOnline := true,
          authed := true,
          pendingSyncs := [],
          events := st.events ++ [.online] } w now e hna rfl rfl
    simp only [goOnline, processPendingSyncs, emit, hq, ha, Bool.not_true,
      Bool.false_or, Bool.not_false, Bool.or_false, if_false,
      List.foldl_cons, List.foldl_nil, drainStep]
    simp only [hstep]
    rfl

/-- Witness for C6's theorem: a concrete offline, authenticated engine;
queueing a record, then going online with a succeeding save drains to an
empty queue with exactly one save call; going online with a failing save
re-appends the item at the back. -/
theorem offline_queue_roundtrip_witness :
    syncWorksheetToCloud
        ⟨false, true, "u", [], [], [], [], [], false, false, false⟩
        ⟨"e", some 1, 0, false, none, none, 0⟩ 5 none =
      ({ (⟨false, true, "u", [], [], [], [], [], false, false, false⟩ :
          EngineState) with
        pendingSyncs := [] ++ [⟨.upload, ⟨"e", some 1, 0, false, none, none, 0⟩⟩] },
        .ok ()) ∧
    (goOnline
        ⟨false, true, "u", [⟨.upload, ⟨"e", some 1, 0, false, none, none, 0⟩⟩],
          [], [], [], [], false, false, false⟩ 5
        (fun _ => none)).pendingSyncs = [] ∧
    (goOnline
        ⟨false, true, "u", [⟨.upload, ⟨"e", some 1, 0, false, none, none, 0⟩⟩],
          [], [], [], [], false, false, false⟩ 5
        (fun _ => none)).saveCalls =
      [] ++ ([⟨.upload, ⟨"e", some 1, 0, false, none, none, 0⟩⟩] :
          List PendingSync).map (fun i => i.data.id) ∧
    (goOnline
        ⟨false, true, "u", [⟨.upload, ⟨"e", some 1, 0, false, none, none, 0⟩⟩],
          [], [], [], [], false, false, false⟩ 5
        (fun _ => some ⟨"network", ""⟩)).pendingSyncs.getLast? =
      some ⟨.upload, ⟨"e", some 1, 0, false, none, none, 0⟩⟩ :=
  ⟨(offline_queue_roundtrip 5).1
      ⟨false, true, "u", [], [], [], [], [], false, false, false⟩
      ⟨"e", some 1, 0, false, none, none, 0⟩ none (Or.inr rfl),
    ((offline_queue_roundtrip 5).2.1
      ⟨false, true, "u", [⟨.upload, ⟨"e", some 1, 0, false, none, none, 0⟩⟩],
        [], [], [], [], false, false, false⟩ rfl).1,
    ((offline_queue_roundtrip 5).2.1
      ⟨false, true, "u", [⟨.upload, ⟨"e", some 1, 0, false, none, none, 0⟩⟩],
        [], [], [], [], false, false, false⟩ rfl).2,
    (offline_queue_roundtrip 5).2.2
      ⟨false, true, "u", [⟨.upload, ⟨"e", some 1, 0, false, none, none, 0⟩⟩],
        [], [], [], [], false, false, false⟩
      ⟨"e", some 1, 0, false, none, none, 0⟩ ⟨"network", ""⟩ rfl rfl
      (by decide)⟩

/-- Counterexample to C7 as stated: a failure during the full
reconciliation pass IS re-thrown past the engine boundary when the caller
invokes the exposed full-sync entry point (`performInitialSync`) directly:
the call returns the error to its caller rather than swallowing it. -/
theorem reconcile_error_rethrow_counterexample :
    (performInitialSync
        ⟨true, true, "u", [], [], [], [], [], true, false, false⟩ 1
        (some ⟨"network", ""⟩)).2 = Except.error ⟨"network", ""⟩ := rfl

/-- C7 amended: a failure during the full reconciliation pass invoked
through `startSync` is not re-thrown to `startSync`'s caller — it is
delivered only as a `sync-error` event on the event channel, and the
single-flight flag is reset so `startSync` remains retryable; however the
exposed `performInitialSync` entry point itself re-throws the error to its
direct caller. -/
theorem reconcile_error_channel_amended (st : EngineState) (now : Nat)
    (e : JsError) (ha : st.authed = true) (hs : st.syncStarted = false)
    (hp : st.syncInProgress = false) (hna : isAuthError e = false) :
    (startSync st now (some e)).syncStarted = false ∧
    (startSync st now (some e)).events =
      st.events ++ [.syncStartedEv, .syncProgressInitial, .syncErrorEv e] ∧
    (performInitialSync st now (some e)).2 = Except.error e := by
  refine ⟨?_, ?_, ?_⟩
  · simp [startSync, performInitialSync, emit, ha, hs, hp, hna]
  · simp [startSync, performInitialSync, emit, ha, hs, hp, hna]
  · simp [performInitialSync, hp, hna]

/-- Witness for the amended C7 theorem at a concrete state. -/
theorem reconcile_error_channel_amended_witness :
    (startSync ⟨true, true, "u", [], [], [], [], [], false, false, false⟩ 1
        (some ⟨"network", ""⟩)).syncStarted = false ∧
    (startSync ⟨true, true, "u", [], [], [], [], [], false, false, false⟩ 1
        (some ⟨"network", ""⟩)).events =
      [] ++ [.syncStartedEv, .syncProgressInitial, .syncErrorEv ⟨"network", ""⟩] ∧
    (performInitialSync ⟨true, true, "u", [], [], [], [], [], false, false, false⟩
        1 (some ⟨"network", ""⟩)).2 = Except.error ⟨"network", ""⟩ :=
  reconcile_error_channel_amended
    ⟨true, true, "u", [], [], [], [], [], false, false, false⟩ 1
    ⟨"network", ""⟩ rfl rfl rfl (by decide)

/-- C9: `startSync` is single-flight and guarded. A call while a previous
start is in progress is a complete no-op (no reconciliation, no events, no
error — the state is returned unchanged); a call while unauthenticated
returns without effect; and when the start sequence fails, the
single-flight flag is reset so a future call can retry, and a `sync-error`
event is emitted. -/
theorem startSync_single_flight (st : EngineState) (now : Nat)
    (failure : Option JsError) :
    (st.syncStarted = true → startSync st now failure = st) ∧
    (st.authed = false → startSync st now failure = st) ∧
    (∀ e, st.authed = true → st.syncStarted = false → st.syncInProgress = false →
      (startSync st now (some e)).syncStarted = false ∧
      SyncEvent.syncErrorEv e ∈ (startSync st now (some e)).events) := by
  refine ⟨?_, ?_, ?_⟩
  · intro hs
    cases ha : st.authed <;> simp [startSync, ha, hs]
  · intro ha
    simp [startSync, ha]
  · intro e ha hs hp
    cases hae : isAuthError e <;>
      simp [startSync, performInitialSync, stopSync, emit, ha, hs, hp, hae]

/-- Witness for C9's theorem: at a concrete already-started state the call
is a no-op; at a concrete unauthenticated state the call has no effect;
at a concrete fresh state a failing start resets the flag and emits
`sync-error`. -/
theorem startSync_single_flight_witness :
    (startSync ⟨true, true, "u", [], [], [], [], [], true, false, true⟩ 1 none =
      ⟨true, true, "u", [], [], [], [], [], true, false, true⟩) ∧
    (startSync ⟨true, false, "u", [], [], [], [], [], false, false, false⟩ 1 none =
      ⟨true, false, "u", [], [], [], [], [], false, false, false⟩) ∧
    ((startSync ⟨true, true, "u", [], [], [], [], [], false, false, false⟩ 1
        (some ⟨"network", ""⟩)).syncStarted = false ∧
      SyncEvent.syncErrorEv ⟨"network", ""⟩ ∈
        (startSync ⟨true, true, "u", [], [], [], [], [], false, false, false⟩ 1
          (some ⟨"network", ""⟩)).events) :=
  ⟨(startSync_single_flight
      ⟨true, true, "u", [], [], [], [], [], true, false, true⟩ 1 none).1 rfl,
    (startSync_single_flight
      ⟨true, false, "u", [], [], [], [], [], false, false, false⟩ 1 none).2.1 rfl,
    (startSync_single_flight
      ⟨true, true, "u", [], [], [], [], [], false, false, false⟩ 1
      (some ⟨"network", ""⟩)).2.2 ⟨"network", ""⟩ rfl rfl rfl⟩

/-- C10: for every event emission, every registered listener is invoked
exactly once, in registration order, even when an earlier-registered
listener throws: the notification loop catches each listener's exception,
so the i-th outcome is exactly the i-th listener applied to the event
(regardless of the other listeners' outcomes), no exception propagates
out of the loop (its result is a total list of caught outcomes), and the
emission leaves every engine field other than the event trace unchanged. -/
theorem listener_exception_isolation (ls : List ListenerFn) (ev : SyncEvent) :
    (notifyResults ev ls).length = ls.length ∧
    (∀ i, (notifyResults ev ls).get? i = (ls.get? i).map (fun l => l ev)) ∧
    (∀ st : EngineState,
      (emit st ev).localStore = st.localStore ∧
      (emit st ev).remoteStore = st.remoteStore ∧
      (emit st ev).pendingSyncs = st.pendingSyncs ∧
      (emit st ev).isOnline = st.isOnline ∧
      (emit st ev).authed = st.authed ∧
      (emit st ev).syncStarted = st.syncStarted ∧
      (emit st ev).syncInProgress = st.syncInProgress ∧
      (emit st ev).subscribed = st.subscribed) := by
  refine ⟨?_, ?_, ?_⟩
  · induction ls with
    | nil => rfl
    | cons l ls ih => simp [notifyResults, ih]
  · intro i
    induction ls generalizing i with
    | nil => simp [notifyResults]
    | cons l ls ih =>
      cases i with
      | zero => rfl
      | succ j => simpa [notifyResults] using ih j
  · intro st
    exact ⟨rfl, rfl, rfl, rfl, rfl, rfl, rfl, rfl⟩

end TheWork
